import Mathlib

/-!
Verification development for a small surgical-case scheduling system.

The system keeps surgical cases and their timed subtasks in a store,
assigns one of five fixed operating rooms to a case by first-fit interval
search, and recomputes task/case statuses from the current time on every
read.  Timestamps are embedded as `Int` (minutes); the store's sortable
ISO-8601 text timestamps compare exactly like the instants they denote,
so integer comparison is a faithful image of the source's comparisons.
The persistent store is embedded as an explicit state value (`DB`) passed
through each operation; the wall clock is an explicit `now : Int`
parameter.
-/

/-- Clinical priority of a surgery case (`SurgeryPriority` in the source). -/
inductive SurgeryPriority where
  | emergency
  | urgent
  | elective
deriving DecidableEq, Repr

/-- Global status of a surgery case (`SurgeryStatus`). -/
inductive SurgeryStatus where
  | new
  | planned
  | in_progress
  | completed
  | cancelled
deriving DecidableEq, Repr

/-- Status of one subtask of a surgical plan (`TaskStatus`). -/
inductive TaskStatus where
  | pending
  | scheduled
  | in_progress
  | done
  | failed
  | cancelled
deriving DecidableEq, Repr

/-- A subtask of a surgery case (`SurgeryTask`): optionally bound to a room
and to a scheduled time window. -/
structure SurgeryTask where
  id : String
  case_id : String
  name : String
  status : TaskStatus
  or_room_id : Option String
  scheduled_start : Option Int
  scheduled_end : Option Int
deriving DecidableEq, Repr

/-- A surgery case (`SurgeryCase`) together with its owned task list. -/
structure SurgeryCase where
  id : String
  patient_name : String
  procedure_name : String
  priority : SurgeryPriority
  requested_datetime : Int
  status : SurgeryStatus
  created_at : Int
  updated_at : Int
  tasks : List SurgeryTask
deriving DecidableEq, Repr

/-- An operating room (`ORRoom` in `knowledge_base.py`). -/
structure ORRoom where
  id : String
  name : String
deriving DecidableEq, Repr

/-- One row of the `surgery_cases` table: a case without its tasks. -/
structure CaseRow where
  id : String
  patient_name : String
  procedure_name : String
  priority : SurgeryPriority
  requested_datetime : Int
  status : SurgeryStatus
  created_at : Int
  updated_at : Int
deriving DecidableEq, Repr

/-- The SQLite state: the `surgery_cases` table and the `surgery_tasks`
table.  (The `notifications` table is not needed by any property here.) -/
structure DB where
  cases : List CaseRow
  tasks : List SurgeryTask
deriving DecidableEq, Repr

/-- Input data for a new case (`NewCaseInput`). -/
structure NewCaseInput where
  patient_name : String
  procedure_name : String
  priority : SurgeryPriority
  requested_datetime : Int
deriving DecidableEq, Repr

/-- The five operating rooms declared in `KnowledgeBase.__init__`, in
declaration order. -/
def orRoom1 : ORRoom := ⟨"OR-1", "Quirofano 1"⟩

def orRoom2 : ORRoom := ⟨"OR-2", "Quirofano 2"⟩

def orRoom3 : ORRoom := ⟨"OR-3", "Quirofano 3"⟩

def orRoom4 : ORRoom := ⟨"OR-4", "Quirofano 4"⟩

def orRoom5 : ORRoom := ⟨"OR-5", "Quirofano 5"⟩

/-- Iteration order of `self._or_rooms.values()`: insertion order of the
dict literal, OR-1 through OR-5. -/
def orRooms : List ORRoom := [orRoom1, orRoom2, orRoom3, orRoom4, orRoom5]

/-- The SQL conflict query inside `find_available_or`: is there a task in
room `rid` with both bounds set whose interval satisfies
`scheduled_start < e AND scheduled_end > s`? -/
def conflictsWith (tasks : List SurgeryTask) (rid : String) (s e : Int) : Bool :=
  tasks.any fun t =>
    t.or_room_id == some rid &&
    (match t.scheduled_start, t.scheduled_end with
     | some ts, some te => decide (ts < e) && decide (te > s)
     | _, _ => false)

/-- `KnowledgeBase.find_available_or`: first room (in declaration order)
whose schedule has no conflicting task for the interval `[s, e]`. -/
def find_available_or (db : DB) (s e : Int) : Option ORRoom :=
  orRooms.find? fun room => !(conflictsWith db.tasks room.id s e)

/-- The `ORDER BY scheduled_start ASC, id ASC` key used by `_row_to_case`:
`NULL` starts sort first, ties on the start are broken by the task id. -/
def taskLE (a b : SurgeryTask) : Bool :=
  match a.scheduled_start, b.scheduled_start with
  | none, none => decide (a.id ≤ b.id)
  | none, some _ => true
  | some _, none => false
  | some x, some y => decide (x < y) || (decide (x = y) && decide (a.id ≤ b.id))

/-- Insert a task into a list sorted by `taskLE`. -/
def insertTask (t : SurgeryTask) : List SurgeryTask → List SurgeryTask
  | [] => [t]
  | h :: l => if taskLE t h then t :: h :: l else h :: insertTask t l

/-- Sort a task list by `(scheduled_start, id)`, the order produced by the
task query of `_row_to_case`. -/
def sortTasks (l : List SurgeryTask) : List SurgeryTask :=
  l.foldr insertTask []

/-- The case row stored for a `SurgeryCase` by `add_case`. -/
def caseRowOf (c : SurgeryCase) : CaseRow :=
  { id := c.id
    patient_name := c.patient_name
    procedure_name := c.procedure_name
    priority := c.priority
    requested_datetime := c.requested_datetime
    status := c.status
    created_at := c.created_at
    updated_at := c.updated_at }

/-- `KnowledgeBase.add_case`: `INSERT OR REPLACE` of the case row, then
delete-and-reinsert of the case's task rows, in one transaction. -/
def add_case (c : SurgeryCase) (db : DB) : DB :=
  { cases := db.cases.filter (fun r => !(r.id == c.id)) ++ [caseRowOf c]
    tasks := db.tasks.filter (fun t => !(t.case_id == c.id)) ++ c.tasks }

/-- `KnowledgeBase._row_to_case`: rebuild a `SurgeryCase` from its row and
its task rows, the latter ordered by `(scheduled_start, id)`. -/
def row_to_case (db : DB) (row : CaseRow) : SurgeryCase :=
  { id := row.id
    patient_name := row.patient_name
    procedure_name := row.procedure_name
    priority := row.priority
    requested_datetime := row.requested_datetime
    status := row.status
    created_at := row.created_at
    updated_at := row.updated_at
    tasks := sortTasks (db.tasks.filter (fun t => t.case_id == row.id)) }

/-- One iteration of the task loop of `_refresh_case_status`: a task with
both bounds set gets its status recomputed from `now`; any other task is
left untouched. -/
def refreshTask (now : Int) (t : SurgeryTask) : SurgeryTask :=
  match t.scheduled_start, t.scheduled_end with
  | some s, some e =>
    if now ≥ e then { t with status := TaskStatus.done }
    else if s ≤ now ∧ now < e then { t with status := TaskStatus.in_progress }
    else { t with status := TaskStatus.scheduled }
  | _, _ => t

/-- Does the task have both `scheduled_start` and `scheduled_end`? -/
def isTimed (t : SurgeryTask) : Bool :=
  t.scheduled_start.isSome && t.scheduled_end.isSome

/-- `KnowledgeBase._refresh_case_status` as a pure function.  The loop's
`any_in_progress` / `all_completed` flags are recovered from the refreshed
statuses: the three branches of the loop assign three distinct statuses to
a task with both bounds set, so a refreshed timed task's status determines
which branch ran for it. -/
def refresh_case_status (now : Int) (c : SurgeryCase) : SurgeryCase :=
  let tasks := c.tasks.map (refreshTask now)
  let anyInProgress := tasks.any fun t => isTimed t && t.status == TaskStatus.in_progress
  let allCompleted := tasks.all fun t => !(isTimed t) || t.status == TaskStatus.done
  let status :=
    if anyInProgress then SurgeryStatus.in_progress
    else if allCompleted ∧ ¬ c.tasks.isEmpty then SurgeryStatus.completed
    else SurgeryStatus.planned
  { c with tasks := tasks, status := status, updated_at := now }

/-- `KnowledgeBase.get_case`: load the case, refresh it against `now`, and
persist the refreshed state as a side effect of the read. -/
def get_case (db : DB) (now : Int) (cid : String) : Option SurgeryCase × DB :=
  match db.cases.find? (fun r => r.id == cid) with
  | none => (none, db)
  | some row =>
    let c := refresh_case_status now (row_to_case db row)
    (some c, add_case c db)

/-- The `ORDER BY created_at DESC` key of `list_cases`. -/
def rowGE (a b : CaseRow) : Bool :=
  decide (b.created_at ≤ a.created_at)

/-- Insertion into a list sorted by `rowGE` (newest first). -/
def insertRow (r : CaseRow) : List CaseRow → List CaseRow
  | [] => [r]
  | h :: l => if rowGE r h then r :: h :: l else h :: insertRow r l

/-- Sort case rows by creation time, descending. -/
def sortRowsDesc (l : List CaseRow) : List CaseRow :=
  l.foldr insertRow []

/-- `KnowledgeBase.list_cases`: the case rows are fetched once, then each
case is rebuilt against the current store, refreshed, and re-persisted in
turn. -/
def list_cases (db : DB) (now : Int) : List SurgeryCase × DB :=
  (sortRowsDesc db.cases).foldl
    (fun acc row =>
      let c := refresh_case_status now (row_to_case acc.2 row)
      (acc.1 ++ [c], add_case c acc.2))
    ([], db)

/-- `Executor._schedule_case`: read the case (which refreshes and persists
it), compute the envelope of its timed tasks, find a free room for the
envelope, and on success assign that room to every task of the case and
persist the whole case. -/
def schedule_case (db : DB) (now : Int) (cid : String) : Option SurgeryCase × DB :=
  match get_case db now cid with
  | (none, db1) => (none, db1)
  | (some c, db1) =>
    if c.tasks.isEmpty then (some c, db1)
    else
      let tasks_with_time := c.tasks.filter isTimed
      if tasks_with_time.isEmpty then (some c, db1)
      else
        let starts := tasks_with_time.filterMap (fun t => t.scheduled_start)
        let ends := tasks_with_time.filterMap (fun t => t.scheduled_end)
        match starts.min?, ends.max? with
        | some s, some e =>
          match find_available_or db1 s e with
          | none => (some c, db1)
          | some room =>
            let tasks := c.tasks.map fun t =>
              { t with or_room_id := some room.id, status := TaskStatus.scheduled }
            let c1 := { c with tasks := tasks, updated_at := now }
            (some c1, add_case c1 db1)
        | _, _ => (some c, db1)

/-- `Planner._generate_task_id`: `f"{case_id}-{index_or_suffix}"`. -/
def generate_task_id (caseId suffix : String) : String :=
  caseId ++ "-" ++ suffix

/-- `Planner._build_tasks_deterministic`: the fixed three-phase fallback
plan around the requested time (minutes): pre-operative for the hour
before, main procedure for two hours from the requested time,
post-operative for the hour after the main procedure. -/
def build_tasks_deterministic (caseId : String) (data : NewCaseInput) : List SurgeryTask :=
  let pre_start := data.requested_datetime - 60
  let pre_end := data.requested_datetime
  let surg_start := data.requested_datetime
  let surg_end := data.requested_datetime + 120
  let post_start := surg_end
  let post_end := surg_end + 60
  [ { id := generate_task_id caseId "PRE"
      case_id := caseId
      name := "Preoperatorio"
      status := TaskStatus.scheduled
      or_room_id := none
      scheduled_start := some pre_start
      scheduled_end := some pre_end },
    { id := generate_task_id caseId "SURG"
      case_id := caseId
      name := "Cirugia principal"
      status := TaskStatus.scheduled
      or_room_id := none
      scheduled_start := some surg_start
      scheduled_end := some surg_end },
    { id := generate_task_id caseId "POST"
      case_id := caseId
      name := "Postoperatorio"
      status := TaskStatus.scheduled
      or_room_id := none
      scheduled_start := some post_start
      scheduled_end := some post_end } ]

/-- A task proposal from the external suggestion service
(`PlannedTaskDefinition` in `ai_adapter.py`). -/
structure PlannedTaskDefinition where
  name : String
  offset_start_minutes : Int
  duration_minutes : Int
deriving DecidableEq, Repr

/-- The error raised by `ai_adapter` when the external path cannot be used
(`GeminiNotAvailable`). -/
structure GeminiNotAvailable where
  msg : String
deriving DecidableEq, Repr

/-- Possible outcomes of the external call performed by
`suggest_tasks_for_surgery`.  The real call is network input-output; its
observable outcomes are enumerated here: no API key configured, a request
failure, a response whose text holds no valid JSON, a JSON object without
a usable `tasks` list, or a parsed list of proposals. -/
inductive GeminiOutcome where
  | notConfigured
  | requestFailed
  | invalidJson
  | noTaskList
  | ok (proposals : List PlannedTaskDefinition)
deriving DecidableEq, Repr

/-- `ai_adapter.suggest_tasks_for_surgery`: every failure of the external
path is turned into `GeminiNotAvailable`; a parsed proposal list is
filtered to proposals with a non-blank name and must stay non-empty. -/
def suggest_tasks_for_surgery (outcome : GeminiOutcome) :
    Except GeminiNotAvailable (List PlannedTaskDefinition) :=
  match outcome with
  | GeminiOutcome.notConfigured =>
    Except.error ⟨"GEMINI_API_KEY no configurada."⟩
  | GeminiOutcome.requestFailed =>
    Except.error ⟨"Fallo al obtener plan desde Gemini."⟩
  | GeminiOutcome.invalidJson =>
    Except.error ⟨"Respuesta de Gemini no contenia JSON valido."⟩
  | GeminiOutcome.noTaskList =>
    Except.error ⟨"Respuesta de Gemini no contenia una lista tasks valida."⟩
  | GeminiOutcome.ok proposals =>
    let result := proposals.filter fun t => !(t.name.trim == "")
    if result.isEmpty then
      Except.error ⟨"Gemini devolvio tareas vacias tras el filtrado."⟩
    else
      Except.ok result

/-- `Planner._build_tasks_with_gemini`: convert each proposal to a task
with absolute bounds relative to the requested time and sequential ids
`{case_id}-T{index}` (1-based). -/
def build_tasks_with_gemini (caseId : String) (data : NewCaseInput)
    (outcome : GeminiOutcome) : Except GeminiNotAvailable (List SurgeryTask) :=
  match suggest_tasks_for_surgery outcome with
  | Except.error e => Except.error e
  | Except.ok proposed =>
    Except.ok <| (proposed.enum).map fun p =>
      let start := data.requested_datetime + p.2.offset_start_minutes
      { id := generate_task_id caseId ("T" ++ toString (p.1 + 1))
        case_id := caseId
        name := p.2.name
        status := TaskStatus.scheduled
        or_room_id := none
        scheduled_start := some start
        scheduled_end := some (start + p.2.duration_minutes) }

/-- `Planner._build_tasks_for_case`: try the external path first and fall
back to the deterministic plan whenever it reports `GeminiNotAvailable`. -/
def build_tasks_for_case (caseId : String) (data : NewCaseInput)
    (outcome : GeminiOutcome) : List SurgeryTask :=
  match build_tasks_with_gemini caseId data outcome with
  | Except.ok tasks => tasks
  | Except.error _ => build_tasks_deterministic caseId data

/-- Position of a room in the declaration order of `orRooms`. -/
def roomIdx (r : ORRoom) : Nat :=
  orRooms.findIdx fun x => x.id == r.id

/-! ### Facts about `refreshTask` -/

@[simp] theorem refreshTask_id (now : Int) (t : SurgeryTask) :
    (refreshTask now t).id = t.id := by
  cases hs : t.scheduled_start <;> cases he : t.scheduled_end <;>
    simp only [refreshTask, hs, he] <;> (try split) <;> (try split) <;> simp_all

@[simp] theorem refreshTask_case_id (now : Int) (t : SurgeryTask) :
    (refreshTask now t).case_id = t.case_id := by
  cases hs : t.scheduled_start <;> cases he : t.scheduled_end <;>
    simp only [refreshTask, hs, he] <;> (try split) <;> (try split) <;> simp_all

@[simp] theorem refreshTask_name (now : Int) (t : SurgeryTask) :
    (refreshTask now t).name = t.name := by
  cases hs : t.scheduled_start <;> cases he : t.scheduled_end <;>
    simp only [refreshTask, hs, he] <;> (try split) <;> (try split) <;> simp_all

@[simp] theorem refreshTask_or_room_id (now : Int) (t : SurgeryTask) :
    (refreshTask now t).or_room_id = t.or_room_id := by
  cases hs : t.scheduled_start <;> cases he : t.scheduled_end <;>
    simp only [refreshTask, hs, he] <;> (try split) <;> (try split) <;> simp_all

@[simp] theorem refreshTask_scheduled_start (now : Int) (t : SurgeryTask) :
    (refreshTask now t).scheduled_start = t.scheduled_start := by
  cases hs : t.scheduled_start <;> cases he : t.scheduled_end <;>
    simp only [refreshTask, hs, he] <;> (try split) <;> (try split) <;> simp_all

@[simp] theorem refreshTask_scheduled_end (now : Int) (t : SurgeryTask) :
    (refreshTask now t).scheduled_end = t.scheduled_end := by
  cases hs : t.scheduled_start <;> cases he : t.scheduled_end <;>
    simp only [refreshTask, hs, he] <;> (try split) <;> (try split) <;> simp_all

@[simp] theorem refreshTask_isTimed (now : Int) (t : SurgeryTask) :
    isTimed (refreshTask now t) = isTimed t := by
  simp [isTimed]

theorem refreshTask_untimed (now : Int) (t : SurgeryTask)
    (h : t.scheduled_start = none ∨ t.scheduled_end = none) :
    refreshTask now t = t := by
  unfold refreshTask
  rcases h with h | h <;> rw [h] <;> cases t.scheduled_start <;>
    cases t.scheduled_end <;> rfl

theorem refreshTask_status_only (now : Int) (t : SurgeryTask) :
    refreshTask now t = { t with status := (refreshTask now t).status } := by
  obtain ⟨i, ci, n, st, r, ss, se⟩ := t
  cases ss <;> cases se <;> simp only [refreshTask] <;>
    (try split) <;> (try split) <;> rfl

theorem refreshTask_status_overwrite (now : Int) (t : SurgeryTask) (st : TaskStatus)
    (hs : t.scheduled_start.isSome) (he : t.scheduled_end.isSome) :
    refreshTask now { t with status := st } = refreshTask now t := by
  cases hs1 : t.scheduled_start with
  | none => rw [hs1] at hs; simp at hs
  | some s =>
    cases he1 : t.scheduled_end with
    | none => rw [he1] at he; simp at he
    | some e =>
      simp only [refreshTask, hs1, he1] <;> split <;> (try split) <;> rfl

theorem refreshTask_idem (now : Int) (t : SurgeryTask) :
    refreshTask now (refreshTask now t) = refreshTask now t := by
  cases hs : t.scheduled_start with
  | none =>
    have h : refreshTask now t = t := refreshTask_untimed now t (Or.inl hs)
    rw [h]
    exact h
  | some s =>
    cases he : t.scheduled_end with
    | none =>
      have h : refreshTask now t = t := refreshTask_untimed now t (Or.inr he)
      rw [h]
      exact h
    | some e =>
      conv_lhs => rw [refreshTask_status_only now t]
      exact refreshTask_status_overwrite now t _
        (by rw [hs]; rfl) (by rw [he]; rfl)

/-! ### Facts about the task ordering and `sortTasks` -/

theorem taskLE_total (a b : SurgeryTask) :
    taskLE a b = true ∨ taskLE b a = true := by
  unfold taskLE
  cases a.scheduled_start with
  | none =>
    cases b.scheduled_start with
    | none =>
      simp only [decide_eq_true_eq]
      exact le_total a.id b.id
    | some _ => simp
  | some x =>
    cases b.scheduled_start with
    | none => simp
    | some y =>
      simp only [Bool.or_eq_true, Bool.and_eq_true, decide_eq_true_eq]
      rcases lt_trichotomy x y with h | h | h
      · exact Or.inl (Or.inl h)
      · subst h
        rcases le_total a.id b.id with h2 | h2
        · exact Or.inl (Or.inr ⟨rfl, h2⟩)
        · exact Or.inr (Or.inr ⟨rfl, h2⟩)
      · exact Or.inr (Or.inl h)

theorem taskLE_of_not (a b : SurgeryTask) (h : ¬ taskLE a b = true) :
    taskLE b a = true := by
  rcases taskLE_total a b with h1 | h1
  · exact absurd h1 h
  · exact h1

/-- `taskLE` only reads the scheduled start and the id. -/
theorem taskLE_congr (a b a' b' : SurgeryTask)
    (ha1 : a'.scheduled_start = a.scheduled_start) (ha2 : a'.id = a.id)
    (hb1 : b'.scheduled_start = b.scheduled_start) (hb2 : b'.id = b.id) :
    taskLE a' b' = taskLE a b := by
  unfold taskLE
  rw [ha1, ha2, hb1, hb2]

/-- Sortedness in the `(scheduled_start, id)` order used by the store's
task query. -/
def TasksSorted (l : List SurgeryTask) : Prop :=
  List.Chain' (fun a b => taskLE a b = true) l

theorem insertTask_perm (t : SurgeryTask) (l : List SurgeryTask) :
    List.Perm (insertTask t l) (t :: l) := by
  induction l with
  | nil => rfl
  | cons h tl ih =>
    unfold insertTask
    split
    · rfl
    · exact (List.Perm.cons h ih).trans (List.Perm.swap t h tl)

theorem sortTasks_perm (l : List SurgeryTask) : List.Perm (sortTasks l) l := by
  induction l with
  | nil => rfl
  | cons h tl ih =>
    have : sortTasks (h :: tl) = insertTask h (sortTasks tl) := rfl
    rw [this]
    exact (insertTask_perm h (sortTasks tl)).trans (List.Perm.cons h ih)

theorem mem_sortTasks (t : SurgeryTask) (l : List SurgeryTask) :
    t ∈ sortTasks l ↔ t ∈ l :=
  (sortTasks_perm l).mem_iff

theorem length_sortTasks (l : List SurgeryTask) :
    (sortTasks l).length = l.length :=
  (sortTasks_perm l).length_eq

theorem insertTask_head? (t : SurgeryTask) (l : List SurgeryTask) :
    (insertTask t l).head? = some t ∨ (insertTask t l).head? = l.head? := by
  cases l with
  | nil => left; rfl
  | cons h tl =>
    unfold insertTask
    split
    · left; rfl
    · right; rfl

theorem insertTask_sorted (t : SurgeryTask) (l : List SurgeryTask)
    (h : TasksSorted l) : TasksSorted (insertTask t l) := by
  induction l with
  | nil => simp [insertTask, TasksSorted]
  | cons x tl ih =>
    unfold TasksSorted at *
    unfold insertTask
    split
    · exact List.chain'_cons'.2 ⟨fun y hy => by
        simp only [List.head?_cons, Option.mem_def, Option.some.injEq] at hy
        subst hy
        assumption, h⟩
    · refine List.chain'_cons'.2 ⟨?_, ih (List.Chain'.tail h)⟩
      intro y hy
      rcases insertTask_head? t tl with h1 | h1
      · rw [h1] at hy
        simp only [Option.mem_def, Option.some.injEq] at hy
        subst hy
        exact taskLE_of_not t x (by assumption)
      · rw [h1] at hy
        exact (List.chain'_cons'.1 h).1 y hy

theorem sortTasks_sorted (l : List SurgeryTask) : TasksSorted (sortTasks l) := by
  induction l with
  | nil => simp [sortTasks, TasksSorted]
  | cons x tl ih => exact insertTask_sorted x (sortTasks tl) ih

theorem sortTasks_eq_of_sorted (l : List SurgeryTask) (h : TasksSorted l) :
    sortTasks l = l := by
  induction l with
  | nil => rfl
  | cons x tl ih =>
    have h1 : sortTasks (x :: tl) = insertTask x (sortTasks tl) := rfl
    rw [h1, ih (List.Chain'.tail h)]
    cases tl with
    | nil => rfl
    | cons y tl' =>
      have hxy : taskLE x y = true := (List.chain'_cons.1 h).1
      simp [insertTask, hxy]

/-- Mapping a key-preserving function over a sorted list keeps it sorted. -/
theorem TasksSorted.map (l : List SurgeryTask) (f : SurgeryTask → SurgeryTask)
    (hf1 : ∀ t, (f t).scheduled_start = t.scheduled_start)
    (hf2 : ∀ t, (f t).id = t.id)
    (h : TasksSorted l) : TasksSorted (l.map f) := by
  unfold TasksSorted at *
  rw [List.chain'_map]
  refine h.imp ?_
  intro a b hab
  rw [taskLE_congr a b (f a) (f b) (hf1 a) (hf2 a) (hf1 b) (hf2 b)]
  exact hab

/-! ### Characterisation of `List.min?` / `List.max?` over `Int` -/

theorem int_min?_eq_some_iff {l : List Int} {a : Int} :
    l.min? = some a ↔ a ∈ l ∧ ∀ b ∈ l, a ≤ b := by
  have anti : Std.Antisymm ((· : Int) ≤ ·) := ⟨fun h1 h2 => le_antisymm h1 h2⟩
  exact List.min?_eq_some_iff (fun x => le_refl x) (fun x y => min_choice x y)
    (fun x y z => le_min_iff)

theorem int_max?_eq_some_iff {l : List Int} {a : Int} :
    l.max? = some a ↔ a ∈ l ∧ ∀ b ∈ l, b ≤ a := by
  have anti : Std.Antisymm ((· : Int) ≤ ·) := ⟨fun h1 h2 => le_antisymm h1 h2⟩
  exact List.max?_eq_some_iff (fun x => le_refl x) (fun x y => max_choice x y)
    (fun x y z => max_le_iff)

theorem int_min?_congr_perm {l l' : List Int} (h : List.Perm l l') :
    l.min? = l'.min? := by
  cases h1 : l.min? with
  | none =>
    rw [List.min?_eq_none_iff] at h1
    subst h1
    symm
    rw [List.min?_eq_none_iff]
    exact h.nil_eq.symm
  | some a =>
    rw [int_min?_eq_some_iff] at h1
    symm
    rw [int_min?_eq_some_iff]
    exact ⟨h.mem_iff.1 h1.1, fun b hb => h1.2 b (h.mem_iff.2 hb)⟩

theorem int_max?_congr_perm {l l' : List Int} (h : List.Perm l l') :
    l.max? = l'.max? := by
  cases h1 : l.max? with
  | none =>
    rw [List.max?_eq_none_iff] at h1
    subst h1
    symm
    rw [List.max?_eq_none_iff]
    exact h.nil_eq.symm
  | some a =>
    rw [int_max?_eq_some_iff] at h1
    symm
    rw [int_max?_eq_some_iff]
    exact ⟨h.mem_iff.1 h1.1, fun b hb => h1.2 b (h.mem_iff.2 hb)⟩

/-! ### Facts about `refresh_case_status` -/

@[simp] theorem refresh_case_tasks (now : Int) (c : SurgeryCase) :
    (refresh_case_status now c).tasks = c.tasks.map (refreshTask now) := rfl

@[simp] theorem refresh_case_id (now : Int) (c : SurgeryCase) :
    (refresh_case_status now c).id = c.id := rfl

@[simp] theorem refresh_case_patient_name (now : Int) (c : SurgeryCase) :
    (refresh_case_status now c).patient_name = c.patient_name := rfl

@[simp] theorem refresh_case_procedure_name (now : Int) (c : SurgeryCase) :
    (refresh_case_status now c).procedure_name = c.procedure_name := rfl

@[simp] theorem refresh_case_priority (now : Int) (c : SurgeryCase) :
    (refresh_case_status now c).priority = c.priority := rfl

@[simp] theorem refresh_case_requested (now : Int) (c : SurgeryCase) :
    (refresh_case_status now c).requested_datetime = c.requested_datetime := rfl

@[simp] theorem refresh_case_created_at (now : Int) (c : SurgeryCase) :
    (refresh_case_status now c).created_at = c.created_at := rfl

@[simp] theorem refresh_case_updated_at (now : Int) (c : SurgeryCase) :
    (refresh_case_status now c).updated_at = now := rfl

/-- A refreshed task reads as "in progress" exactly when its window
contains `now`. -/
theorem refreshTask_in_progress_iff (now : Int) (t : SurgeryTask) :
    (isTimed (refreshTask now t) &&
      ((refreshTask now t).status == TaskStatus.in_progress)) = true ↔
    ∃ s e, t.scheduled_start = some s ∧ t.scheduled_end = some e ∧
      s ≤ now ∧ now < e := by
  cases hs : t.scheduled_start with
  | none =>
    rw [refreshTask_untimed now t (Or.inl hs)]
    simp [isTimed, hs]
  | some s =>
    cases he : t.scheduled_end with
    | none =>
      rw [refreshTask_untimed now t (Or.inr he)]
      simp [isTimed, hs, he]
    | some e =>
      have htimed : isTimed (refreshTask now t) = true := by
        simp [isTimed, hs, he]
      rw [htimed]
      simp only [Bool.true_and, beq_iff_eq]
      unfold refreshTask
      rw [hs, he]
      simp only
      by_cases h1 : now ≥ e
      · rw [if_pos h1]
        simp only [hs, he]
        constructor
        · intro h; exact absurd h (by simp)
        · rintro ⟨s', e', hs', he', _, hlt⟩
          injection hs' with hs''
          injection he' with he''
          omega
      · rw [if_neg h1]
        by_cases h2 : s ≤ now ∧ now < e
        · rw [if_pos h2]
          simp only
          constructor
          · intro _; exact ⟨s, e, rfl, rfl, h2.1, h2.2⟩
          · intro _; trivial
        · rw [if_neg h2]
          simp only
          constructor
          · intro h; exact absurd h (by simp)
          · rintro ⟨s', e', hs', he', hle, hlt⟩
            injection hs' with hs''
            injection he' with he''
            subst hs''
            subst he''
            exact absurd ⟨hle, hlt⟩ h2

/-- A refreshed task counts as completed for the case-completion check
exactly when it is untimed or its window has ended. -/
theorem refreshTask_all_done_iff (now : Int) (t : SurgeryTask) :
    (!(isTimed (refreshTask now t)) ||
      ((refreshTask now t).status == TaskStatus.done)) = true ↔
    ∀ s e, t.scheduled_start = some s → t.scheduled_end = some e → now ≥ e := by
  cases hs : t.scheduled_start with
  | none =>
    rw [refreshTask_untimed now t (Or.inl hs)]
    simp [isTimed, hs]
  | some s =>
    cases he : t.scheduled_end with
    | none =>
      rw [refreshTask_untimed now t (Or.inr he)]
      simp [isTimed, hs, he]
    | some e =>
      have htimed : isTimed (refreshTask now t) = true := by
        simp [isTimed, hs, he]
      rw [htimed]
      simp only [Bool.not_true, Bool.false_or, beq_iff_eq]
      unfold refreshTask
      rw [hs, he]
      simp only
      by_cases h1 : now ≥ e
      · rw [if_pos h1]
        simp only
        constructor
        · intro _ s' e' hs' he'
          injection he' with he''
          omega
        · intro _; trivial
      · rw [if_neg h1]
        by_cases h2 : s ≤ now ∧ now < e
        · rw [if_pos h2]
          simp only
          constructor
          · intro h; exact absurd h (by simp)
          · intro h
            exact absurd (h s e rfl rfl) h1
        · rw [if_neg h2]
          simp only
          constructor
          · intro h; exact absurd h (by simp)
          · intro h
            exact absurd (h s e rfl rfl) h1

theorem refresh_anyInProgress_iff (now : Int) (c : SurgeryCase) :
    ((c.tasks.map (refreshTask now)).any fun t =>
      isTimed t && (t.status == TaskStatus.in_progress)) = true ↔
    ∃ t ∈ c.tasks, ∃ s e, t.scheduled_start = some s ∧ t.scheduled_end = some e ∧
      s ≤ now ∧ now < e := by
  rw [List.any_map, List.any_eq_true]
  constructor
  · rintro ⟨t, ht, hp⟩
    exact ⟨t, ht, (refreshTask_in_progress_iff now t).1 hp⟩
  · rintro ⟨t, ht, hw⟩
    exact ⟨t, ht, (refreshTask_in_progress_iff now t).2 hw⟩

theorem refresh_allCompleted_iff (now : Int) (c : SurgeryCase) :
    ((c.tasks.map (refreshTask now)).all fun t =>
      !(isTimed t) || (t.status == TaskStatus.done)) = true ↔
    ∀ t ∈ c.tasks, ∀ s e, t.scheduled_start = some s → t.scheduled_end = some e →
      now ≥ e := by
  rw [List.all_map, List.all_eq_true]
  constructor
  · intro h t ht
    exact (refreshTask_all_done_iff now t).1 (h t ht)
  · intro h t ht
    exact (refreshTask_all_done_iff now t).2 (h t ht)

theorem refresh_status_eq (now : Int) (c : SurgeryCase) :
    (refresh_case_status now c).status =
      (if ((c.tasks.map (refreshTask now)).any fun t =>
            isTimed t && (t.status == TaskStatus.in_progress))
       then SurgeryStatus.in_progress
       else if ((c.tasks.map (refreshTask now)).all fun t =>
            !(isTimed t) || (t.status == TaskStatus.done)) ∧ ¬ c.tasks.isEmpty
       then SurgeryStatus.completed
       else SurgeryStatus.planned) := rfl

theorem refresh_status_in_progress_iff (now : Int) (c : SurgeryCase) :
    (refresh_case_status now c).status = SurgeryStatus.in_progress ↔
    ∃ t ∈ c.tasks, ∃ s e, t.scheduled_start = some s ∧ t.scheduled_end = some e ∧
      s ≤ now ∧ now < e := by
  rw [refresh_status_eq, ← refresh_anyInProgress_iff now c]
  split
  · simp only [true_iff]
    assumption
  · split <;> simp_all

theorem refresh_status_completed_iff (now : Int) (c : SurgeryCase) :
    (refresh_case_status now c).status = SurgeryStatus.completed ↔
    (¬ ∃ t ∈ c.tasks, ∃ s e, t.scheduled_start = some s ∧
        t.scheduled_end = some e ∧ s ≤ now ∧ now < e) ∧
    (∀ t ∈ c.tasks, ∀ s e, t.scheduled_start = some s →
        t.scheduled_end = some e → now ≥ e) ∧
    c.tasks ≠ [] := by
  rw [refresh_status_eq, ← refresh_anyInProgress_iff now c,
    ← refresh_allCompleted_iff now c]
  split
  · simp_all
  · split
    · rename_i hA hC
      simp only [true_iff]
      refine ⟨by simp_all, hC.1, ?_⟩
      have := hC.2
      simpa [List.isEmpty_iff] using this
    · rename_i hA hC
      constructor
      · intro h; exact absurd h (by simp)
      · rintro ⟨h1, h2, h3⟩
        exact absurd ⟨h2, by simpa [List.isEmpty_iff] using h3⟩ hC

theorem refresh_status_planned_iff (now : Int) (c : SurgeryCase) :
    (refresh_case_status now c).status = SurgeryStatus.planned ↔
    (¬ ∃ t ∈ c.tasks, ∃ s e, t.scheduled_start = some s ∧
        t.scheduled_end = some e ∧ s ≤ now ∧ now < e) ∧
    ¬ ((∀ t ∈ c.tasks, ∀ s e, t.scheduled_start = some s →
        t.scheduled_end = some e → now ≥ e) ∧ c.tasks ≠ []) := by
  rw [refresh_status_eq, ← refresh_anyInProgress_iff now c,
    ← refresh_allCompleted_iff now c]
  split
  · simp_all
  · split
    · rename_i hA hC
      constructor
      · intro h; exact absurd h (by simp)
      · rintro ⟨h1, h2⟩
        exact absurd ⟨hC.1, by simpa [List.isEmpty_iff] using hC.2⟩ h2
    · rename_i hA hC
      simp only [true_iff]
      refine ⟨hA, ?_⟩
      rintro ⟨h1, h2⟩
      exact hC ⟨h1, by simpa [List.isEmpty_iff] using h2⟩

/-- Status of a timed task after refresh, as a single conditional. -/
theorem refreshTask_timed_status (now : Int) (t : SurgeryTask) (s e : Int)
    (hs : t.scheduled_start = some s) (he : t.scheduled_end = some e) :
    (refreshTask now t).status =
      if now ≥ e then TaskStatus.done
      else if s ≤ now ∧ now < e then TaskStatus.in_progress
      else TaskStatus.scheduled := by
  unfold refreshTask
  rw [hs, he]
  simp only
  split <;> (try split) <;> rfl

/-- A concrete case used to refute the literal reading of the case-status
rule: one untimed task stored as in-progress plus one timed task that has
already ended. -/
def caseUntimedInProgress : SurgeryCase :=
  { id := "C"
    patient_name := "P"
    procedure_name := "X"
    priority := SurgeryPriority.elective
    requested_datetime := 0
    status := SurgeryStatus.planned
    created_at := 0
    updated_at := 0
    tasks :=
      [ { id := "C-A", case_id := "C", name := "untimed"
          status := TaskStatus.in_progress, or_room_id := none
          scheduled_start := none, scheduled_end := none },
        { id := "C-B", case_id := "C", name := "timed"
          status := TaskStatus.scheduled, or_room_id := none
          scheduled_start := some 0, scheduled_end := some 1 } ] }

/-- C2, counterexample: at time 5 the refreshed case still holds a task
whose status is `in_progress` (the untimed one, left unmodified), yet the
case status is `completed`, not `in_progress` — so "the case status
becomes in_progress if any task is in_progress" is false as stated: only
tasks with both bounds set are consulted. -/
theorem claim_C2_counterexample :
    ((refresh_case_status 5 caseUntimedInProgress).tasks.any
        fun t => t.status == TaskStatus.in_progress) = true ∧
    (refresh_case_status 5 caseUntimedInProgress).status =
      SurgeryStatus.completed ∧
    SurgeryStatus.completed ≠ SurgeryStatus.in_progress := by
  refine ⟨by decide, by decide, by decide⟩

/-- C2 (amended): the Status Refresher maps each task having both bounds
as: `now ≥ end` → done; `start ≤ now < end` → in_progress; otherwise
scheduled; tasks lacking either bound are untouched and excluded from the
completeness check.  The case status becomes in_progress exactly when some
**timed** task's window contains now; else completed exactly when every
timed task's window has ended and at least one task exists; else planned;
a case with zero tasks never becomes completed. -/
theorem claim_C2 (now : Int) (c : SurgeryCase) :
    ((refresh_case_status now c).tasks = c.tasks.map (refreshTask now)) ∧
    (∀ t : SurgeryTask, ∀ s e : Int,
      t.scheduled_start = some s → t.scheduled_end = some e →
      ((now ≥ e → (refreshTask now t).status = TaskStatus.done) ∧
       (s ≤ now ∧ now < e →
          (refreshTask now t).status = TaskStatus.in_progress) ∧
       (¬ now ≥ e → ¬ (s ≤ now ∧ now < e) →
          (refreshTask now t).status = TaskStatus.scheduled))) ∧
    (∀ t : SurgeryTask, t.scheduled_start = none ∨ t.scheduled_end = none →
      refreshTask now t = t) ∧
    ((refresh_case_status now c).status = SurgeryStatus.in_progress ↔
      ∃ t ∈ c.tasks, ∃ s e, t.scheduled_start = some s ∧
        t.scheduled_end = some e ∧ s ≤ now ∧ now < e) ∧
    ((refresh_case_status now c).status = SurgeryStatus.completed ↔
      (¬ ∃ t ∈ c.tasks, ∃ s e, t.scheduled_start = some s ∧
          t.scheduled_end = some e ∧ s ≤ now ∧ now < e) ∧
      (∀ t ∈ c.tasks, ∀ s e, t.scheduled_start = some s →
          t.scheduled_end = some e → now ≥ e) ∧
      c.tasks ≠ []) ∧
    (c.tasks = [] →
      (refresh_case_status now c).status ≠ SurgeryStatus.completed) := by
  refine ⟨rfl, ?_, ?_, refresh_status_in_progress_iff now c,
    refresh_status_completed_iff now c, ?_⟩
  · intro t s e hs he
    rw [refreshTask_timed_status now t s e hs he]
    refine ⟨fun h1 => by rw [if_pos h1], fun h2 => ?_, fun h1 h2 => ?_⟩
    · rw [if_neg (by omega), if_pos h2]
    · rw [if_neg h1, if_neg h2]
  · intro t ht
    exact refreshTask_untimed now t ht
  · intro hnil h
    rw [refresh_status_completed_iff now c] at h
    exact h.2.2 hnil

/-- A concrete timed task with window `[0, 1)` and stored status pending. -/
def taskTimed01 : SurgeryTask :=
  { id := "C-B"
    case_id := "C"
    name := "timed"
    status := TaskStatus.pending
    or_room_id := none
    scheduled_start := some 0
    scheduled_end := some 1 }

/-- C2 witness: the amended theorem applied at time 5 to a concrete timed
task `[0, 1)` forces status done. -/
theorem claim_C2_witness :
    (refreshTask 5 taskTimed01).status = TaskStatus.done :=
  (((claim_C2 5 caseUntimedInProgress).2.1 taskTimed01 0 1 rfl rfl).1)
    (by decide)

/-- C4: the deterministic fallback plan has exactly 3 tasks with windows
`[t-60, t)`, `[t, t+120)`, `[t+120, t+180)` for requested time `t`, each
with status `scheduled` (not `pending`), no room assigned, and ids formed
from the case id plus the fixed suffixes -PRE, -SURG, -POST. -/
theorem claim_C4 (cid : String) (d : NewCaseInput) :
    (build_tasks_deterministic cid d).length = 3 ∧
    ((build_tasks_deterministic cid d).map (fun t => t.id)) =
      [cid ++ "-PRE", cid ++ "-SURG", cid ++ "-POST"] ∧
    ((build_tasks_deterministic cid d).map (fun t => t.scheduled_start)) =
      [some (d.requested_datetime - 60), some d.requested_datetime,
       some (d.requested_datetime + 120)] ∧
    ((build_tasks_deterministic cid d).map (fun t => t.scheduled_end)) =
      [some d.requested_datetime, some (d.requested_datetime + 120),
       some (d.requested_datetime + 180)] ∧
    (∀ t ∈ build_tasks_deterministic cid d,
      t.status = TaskStatus.scheduled ∧ t.status ≠ TaskStatus.pending ∧
      t.or_room_id = none ∧ t.case_id = cid) := by
  refine ⟨rfl, ?_, ?_, ?_, ?_⟩
  · have h1 : ("-" : String) ++ "PRE" = "-PRE" := rfl
    have h2 : ("-" : String) ++ "SURG" = "-SURG" := rfl
    have h3 : ("-" : String) ++ "POST" = "-POST" := rfl
    simp [build_tasks_deterministic, generate_task_id, String.append_assoc,
      h1, h2, h3]
  · simp [build_tasks_deterministic]
  · simp [build_tasks_deterministic]
    try omega
  · intro t ht
    simp only [build_tasks_deterministic, List.mem_cons, List.not_mem_nil,
      or_false] at ht
    rcases ht with rfl | rfl | rfl <;> exact ⟨rfl, by simp, rfl, rfl⟩

/-- C4 witness: the theorem instantiated at a concrete case id and
requested time 100. -/
theorem claim_C4_witness :
    (build_tasks_deterministic "K" ⟨"P", "X", SurgeryPriority.urgent, 100⟩).map
        (fun t => t.scheduled_start) =
      [some 40, some 100, some 220] :=
  (claim_C4 "K" ⟨"P", "X", SurgeryPriority.urgent, 100⟩).2.2.1

/-- A successful result of the external path is never an empty list. -/
theorem suggest_ok_ne_nil (outcome : GeminiOutcome)
    (res : List PlannedTaskDefinition)
    (h : suggest_tasks_for_surgery outcome = Except.ok res) : res ≠ [] := by
  cases outcome with
  | notConfigured => exact absurd h (by simp [suggest_tasks_for_surgery])
  | requestFailed => exact absurd h (by simp [suggest_tasks_for_surgery])
  | invalidJson => exact absurd h (by simp [suggest_tasks_for_surgery])
  | noTaskList => exact absurd h (by simp [suggest_tasks_for_surgery])
  | ok proposals =>
    unfold suggest_tasks_for_surgery at h
    simp only at h
    split at h
    · exact absurd h (by simp)
    · rename_i hne
      injection h with h1
      subst h1
      simpa [List.isEmpty_iff] using hne

/-- C6: plan generation is total — whenever the external suggestion path
reports `GeminiNotAvailable` (service not configured, request failure,
unparseable response, unusable or empty task list), the error never leaves
the Generator and the result is the deterministic 3-phase fallback plan;
in every case the produced plan is non-empty. -/
theorem claim_C6 (cid : String) (d : NewCaseInput) (outcome : GeminiOutcome) :
    (∀ err, suggest_tasks_for_surgery outcome = Except.error err →
      build_tasks_for_case cid d outcome = build_tasks_deterministic cid d) ∧
    build_tasks_for_case cid d outcome ≠ [] := by
  constructor
  · intro err herr
    unfold build_tasks_for_case build_tasks_with_gemini
    rw [herr]
  · rcases hS : suggest_tasks_for_surgery outcome with err | res
    · unfold build_tasks_for_case build_tasks_with_gemini
      rw [hS]
      simp [build_tasks_deterministic]
    · have hres : res ≠ [] := suggest_ok_ne_nil outcome res hS
      unfold build_tasks_for_case build_tasks_with_gemini
      rw [hS]
      simp only
      intro hcon
      rw [List.map_eq_nil_iff, List.enum, List.enumFrom_eq_nil] at hcon
      exact hres hcon

/-- C6 witness: an unparseable external response at a concrete input falls
back to the deterministic plan. -/
theorem claim_C6_witness :
    build_tasks_for_case "K" ⟨"P", "X", SurgeryPriority.elective, 100⟩
        GeminiOutcome.invalidJson =
      build_tasks_deterministic "K" ⟨"P", "X", SurgeryPriority.elective, 100⟩ :=
  (claim_C6 "K" ⟨"P", "X", SurgeryPriority.elective, 100⟩
      GeminiOutcome.invalidJson).1
    ⟨"Respuesta de Gemini no contenia JSON valido."⟩ rfl

/-- The conflict query holds exactly when some committed task (room
assigned, both bounds set) overlaps `[s, e]` in the sense
`existing.start < e ∧ existing.end > s`. -/
theorem conflictsWith_iff (tasks : List SurgeryTask) (rid : String) (s e : Int) :
    conflictsWith tasks rid s e = true ↔
    ∃ t ∈ tasks, t.or_room_id = some rid ∧ ∃ ts te,
      t.scheduled_start = some ts ∧ t.scheduled_end = some te ∧
      ts < e ∧ te > s := by
  rw [conflictsWith, List.any_eq_true]
  constructor
  · rintro ⟨t, ht, hp⟩
    simp only [Bool.and_eq_true, beq_iff_eq] at hp
    obtain ⟨hroom, hm⟩ := hp
    refine ⟨t, ht, hroom, ?_⟩
    rcases h1 : t.scheduled_start with _ | ts <;>
      rcases h2 : t.scheduled_end with _ | te <;>
      rw [h1, h2] at hm <;> simp at hm
    exact ⟨ts, te, rfl, rfl, hm.1, hm.2⟩
  · rintro ⟨t, ht, hroom, ts, te, h1, h2, hlt, hgt⟩
    refine ⟨t, ht, ?_⟩
    simp only [Bool.and_eq_true, beq_iff_eq]
    refine ⟨hroom, ?_⟩
    rw [h1, h2]
    simp only [Bool.and_eq_true, decide_eq_true_eq]
    exact ⟨hlt, hgt⟩

/-- C1: `find_available_or` scans OR-1 … OR-5 in declaration order and
returns the first room with no committed conflicting task for `[s, e]`
(conflict: `existing.start < e ∧ existing.end > s` on a task with a room
and both bounds); it returns `none` exactly when every room conflicts, and
a returned room never holds a conflicting committed task. -/
theorem claim_C1 (db : DB) (s e : Int) :
    (∀ rid : String, conflictsWith db.tasks rid s e = true ↔
      ∃ t ∈ db.tasks, t.or_room_id = some rid ∧ ∃ ts te,
        t.scheduled_start = some ts ∧ t.scheduled_end = some te ∧
        ts < e ∧ te > s) ∧
    (find_available_or db s e = none ↔
      ∀ r ∈ orRooms, conflictsWith db.tasks r.id s e = true) ∧
    (∀ r, find_available_or db s e = some r →
      r ∈ orRooms ∧ conflictsWith db.tasks r.id s e = false) ∧
    (find_available_or db s e = some orRoom1 ↔
      conflictsWith db.tasks "OR-1" s e = false) ∧
    (find_available_or db s e = some orRoom2 ↔
      conflictsWith db.tasks "OR-1" s e = true ∧
      conflictsWith db.tasks "OR-2" s e = false) ∧
    (find_available_or db s e = some orRoom3 ↔
      conflictsWith db.tasks "OR-1" s e = true ∧
      conflictsWith db.tasks "OR-2" s e = true ∧
      conflictsWith db.tasks "OR-3" s e = false) ∧
    (find_available_or db s e = some orRoom4 ↔
      conflictsWith db.tasks "OR-1" s e = true ∧
      conflictsWith db.tasks "OR-2" s e = true ∧
      conflictsWith db.tasks "OR-3" s e = true ∧
      conflictsWith db.tasks "OR-4" s e = false) ∧
    (find_available_or db s e = some orRoom5 ↔
      conflictsWith db.tasks "OR-1" s e = true ∧
      conflictsWith db.tasks "OR-2" s e = true ∧
      conflictsWith db.tasks "OR-3" s e = true ∧
      conflictsWith db.tasks "OR-4" s e = true ∧
      conflictsWith db.tasks "OR-5" s e = false) := by
  refine ⟨fun rid => conflictsWith_iff db.tasks rid s e, ?_⟩
  by_cases c1 : conflictsWith db.tasks "OR-1" s e <;>
    by_cases c2 : conflictsWith db.tasks "OR-2" s e <;>
    by_cases c3 : conflictsWith db.tasks "OR-3" s e <;>
    by_cases c4 : conflictsWith db.tasks "OR-4" s e <;>
    by_cases c5 : conflictsWith db.tasks "OR-5" s e <;>
    simp_all [find_available_or, orRooms, orRoom1, orRoom2, orRoom3,
      orRoom4, orRoom5]

/-- A store with one committed task occupying OR-1 over `[0, 10)`. -/
def dbRoom1Busy : DB :=
  { cases := []
    tasks :=
      [ { id := "A-T1"
          case_id := "A"
          name := "surg"
          status := TaskStatus.scheduled
          or_room_id := some "OR-1"
          scheduled_start := some 0
          scheduled_end := some 10 } ] }

/-- C1 witness: with OR-1 busy over `[0, 10)`, the room found for that
window is a member of the fixed room set and conflict-free. -/
theorem claim_C1_witness :
    orRoom2 ∈ orRooms ∧
    conflictsWith dbRoom1Busy.tasks orRoom2.id 0 10 = false :=
  (claim_C1 dbRoom1Busy 0 10).2.2.1 orRoom2 (by decide)

/-! ### Structure of `get_case` results -/

theorem get_case_some (db : DB) (now : Int) (cid : String) (c : SurgeryCase)
    (db1 : DB) (h : get_case db now cid = (some c, db1)) :
    ∃ row, db.cases.find? (fun r => r.id == cid) = some row ∧ row.id = cid ∧
      c = refresh_case_status now (row_to_case db row) ∧
      db1 = add_case c db := by
  unfold get_case at h
  cases hfind : db.cases.find? (fun r => r.id == cid) with
  | none =>
    rw [hfind] at h
    exact absurd h (by simp)
  | some row =>
    rw [hfind] at h
    simp only [Prod.mk.injEq, Option.some.injEq] at h
    obtain ⟨h1, h2⟩ := h
    have hid : row.id = cid := by
      have hp := List.find?_some hfind
      simpa using hp
    subst h1
    exact ⟨row, rfl, hid, rfl, h2.symm⟩

theorem get_case_id (db : DB) (now : Int) (cid : String) (c : SurgeryCase)
    (db1 : DB) (h : get_case db now cid = (some c, db1)) : c.id = cid := by
  obtain ⟨row, _, hid, hc, _⟩ := get_case_some db now cid c db1 h
  rw [hc]
  simpa using hid

/-- C3: for an existing case whose timed tasks yield envelope `[S, E]`
(minimum start, maximum end), a successful `schedule_case` (a free room
found for exactly that envelope) assigns that single room id to every task
of the case — also the untimed ones — sets every task status to scheduled,
stamps `updated_at`, and persists the whole updated case through
`add_case`; no per-task partial assignment exists. -/
theorem claim_C3 (db : DB) (now : Int) (cid : String) (c : SurgeryCase)
    (db1 : DB) (S E : Int) (room : ORRoom)
    (hg : get_case db now cid = (some c, db1))
    (hS : ((c.tasks.filter isTimed).filterMap
        (fun t => t.scheduled_start)).min? = some S)
    (hE : ((c.tasks.filter isTimed).filterMap
        (fun t => t.scheduled_end)).max? = some E)
    (hfind : find_available_or db1 S E = some room) :
    ∃ c1, schedule_case db now cid = (some c1, add_case c1 db1) ∧
      c1.id = c.id ∧ c1.updated_at = now ∧
      c1.tasks = c.tasks.map (fun t =>
        { t with
            or_room_id := some room.id
            status := TaskStatus.scheduled }) ∧
      c1.tasks.length = c.tasks.length ∧
      (∀ t ∈ c1.tasks, t.or_room_id = some room.id ∧
        t.status = TaskStatus.scheduled) := by
  have hfil : c.tasks.filter isTimed ≠ [] := by
    intro hcon
    rw [hcon] at hS
    simp at hS
  have htasks : c.tasks ≠ [] := by
    intro hcon
    rw [hcon] at hfil
    simp at hfil
  have h1 : c.tasks.isEmpty = false := by
    simpa [List.isEmpty_iff] using htasks
  have h2 : (c.tasks.filter isTimed).isEmpty = false := by
    simpa [List.isEmpty_iff] using hfil
  refine ⟨{ c with
      tasks := c.tasks.map (fun t =>
        { t with
            or_room_id := some room.id
            status := TaskStatus.scheduled })
      updated_at := now }, ?_, rfl, rfl, rfl, by simp, ?_⟩
  · unfold schedule_case
    rw [hg]
    simp only [h1, Bool.false_eq_true, if_false, h2, hS, hE, hfind]
  · intro t ht
    simp only [List.mem_map] at ht
    obtain ⟨t0, _, ht0⟩ := ht
    rw [← ht0]
    exact ⟨rfl, rfl⟩

/-- A stored case row for case "C". -/
def rowC : CaseRow :=
  { id := "C"
    patient_name := "P"
    procedure_name := "X"
    priority := SurgeryPriority.elective
    requested_datetime := 0
    status := SurgeryStatus.planned
    created_at := 0
    updated_at := 0 }

/-- A store holding case "C" with the single timed task `[0, 1)`. -/
def dbCase0 : DB := { cases := [rowC], tasks := [taskTimed01] }

/-- Case "C" as produced by reading `dbCase0` at time 0: the task window
contains 0, so the task and the case are in progress. -/
def cAfterRead : SurgeryCase :=
  { id := "C"
    patient_name := "P"
    procedure_name := "X"
    priority := SurgeryPriority.elective
    requested_datetime := 0
    status := SurgeryStatus.in_progress
    created_at := 0
    updated_at := 0
    tasks := [{ taskTimed01 with status := TaskStatus.in_progress }] }

/-- The store state after that read re-persisted the refreshed case. -/
def dbAfterRead : DB := add_case cAfterRead dbCase0

/-- C3 witness: scheduling case "C" in the concrete store assigns OR-1 to
every task and persists the whole case. -/
theorem claim_C3_witness :
    ∃ c1, schedule_case dbCase0 0 "C" = (some c1, add_case c1 dbAfterRead) ∧
      c1.id = cAfterRead.id ∧ c1.updated_at = 0 ∧
      c1.tasks = cAfterRead.tasks.map (fun t =>
        { t with
            or_room_id := some orRoom1.id
            status := TaskStatus.scheduled }) ∧
      c1.tasks.length = cAfterRead.tasks.length ∧
      (∀ t ∈ c1.tasks, t.or_room_id = some orRoom1.id ∧
        t.status = TaskStatus.scheduled) :=
  claim_C3 dbCase0 0 "C" cAfterRead dbAfterRead 0 1 orRoom1
    (by decide) (by decide) (by decide) (by decide)

@[simp] theorem row_to_case_tasks (db : DB) (row : CaseRow) :
    (row_to_case db row).tasks =
      sortTasks (db.tasks.filter (fun t => t.case_id == row.id)) := rfl

@[simp] theorem row_to_case_id (db : DB) (row : CaseRow) :
    (row_to_case db row).id = row.id := rfl

/-- Every task of a case returned by `get_case` originates from a stored
task of that case, with id, room, and both bounds unchanged (only the
status may have been rewritten by the refresher). -/
theorem get_case_task_origin (db : DB) (now : Int) (cid : String)
    (c : SurgeryCase) (db1 : DB) (h : get_case db now cid = (some c, db1)) :
    ∀ t' ∈ c.tasks, ∃ t ∈ db.tasks, t.case_id = cid ∧ t.id = t'.id ∧
      t.or_room_id = t'.or_room_id ∧
      t.scheduled_start = t'.scheduled_start ∧
      t.scheduled_end = t'.scheduled_end := by
  obtain ⟨row, hfind, hid, hc, hdb⟩ := get_case_some db now cid c db1 h
  subst hc
  intro t' ht'
  simp only [refresh_case_tasks, row_to_case_tasks, List.mem_map] at ht'
  obtain ⟨t0, ht0, rfl⟩ := ht'
  rw [mem_sortTasks, List.mem_filter] at ht0
  obtain ⟨htmem, htcid⟩ := ht0
  refine ⟨t0, htmem, ?_, by simp, by simp, by simp, by simp⟩
  rw [← hid]
  exact beq_iff_eq.1 htcid

theorem get_case_none (db : DB) (now : Int) (cid : String)
    (h : (get_case db now cid).1 = none) :
    get_case db now cid = (none, db) := by
  unfold get_case at h ⊢
  cases hfind : db.cases.find? (fun r => r.id == cid) with
  | none => rfl
  | some row =>
    rw [hfind] at h
    simp at h

/-- C5: `schedule_case` never fails for expected business conditions.  A
missing case id yields the no-op signal `none` with the store untouched; a
case with zero tasks, or no task with both bounds, or no free room for the
envelope is returned exactly as read — the scheduling step writes nothing
beyond the read path's own refresh, and no task's room assignment is
changed by the read. -/
theorem claim_C5 (db : DB) (now : Int) (cid : String) :
    ((get_case db now cid).1 = none →
      schedule_case db now cid = (none, db)) ∧
    (∀ c db1, get_case db now cid = (some c, db1) →
      ((c.tasks = [] → schedule_case db now cid = (some c, db1)) ∧
       (c.tasks.filter isTimed = [] →
          schedule_case db now cid = (some c, db1)) ∧
       (∀ S E, ((c.tasks.filter isTimed).filterMap
            (fun t => t.scheduled_start)).min? = some S →
          ((c.tasks.filter isTimed).filterMap
            (fun t => t.scheduled_end)).max? = some E →
          find_available_or db1 S E = none →
          schedule_case db now cid = (some c, db1)) ∧
       (∀ t' ∈ c.tasks, ∃ t ∈ db.tasks, t.case_id = cid ∧ t.id = t'.id ∧
          t.or_room_id = t'.or_room_id ∧
          t.scheduled_start = t'.scheduled_start ∧
          t.scheduled_end = t'.scheduled_end))) := by
  constructor
  · intro h1
    unfold schedule_case
    rw [get_case_none db now cid h1]
  · intro c db1 hg
    refine ⟨?_, ?_, ?_, get_case_task_origin db now cid c db1 hg⟩
    · intro hnil
      unfold schedule_case
      rw [hg]
      simp [hnil]
    · intro hfil
      by_cases hnil : c.tasks = []
      · unfold schedule_case
        rw [hg]
        simp [hnil]
      · unfold schedule_case
        rw [hg]
        have h1 : c.tasks.isEmpty = false := by
          simpa [List.isEmpty_iff] using hnil
        simp only [h1, Bool.false_eq_true, if_false, hfil]
        simp
    · intro S E hS hE hfind
      have hfil : c.tasks.filter isTimed ≠ [] := by
        intro hcon
        rw [hcon] at hS
        simp at hS
      have htasks : c.tasks ≠ [] := by
        intro hcon
        rw [hcon] at hfil
        simp at hfil
      have h1 : c.tasks.isEmpty = false := by
        simpa [List.isEmpty_iff] using htasks
      have h2 : (c.tasks.filter isTimed).isEmpty = false := by
        simpa [List.isEmpty_iff] using hfil
      unfold schedule_case
      rw [hg]
      simp only [h1, Bool.false_eq_true, if_false, h2, hS, hE, hfind]

/-- A stored case row for the task-less case "E". -/
def rowE : CaseRow :=
  { id := "E"
    patient_name := "P"
    procedure_name := "X"
    priority := SurgeryPriority.elective
    requested_datetime := 0
    status := SurgeryStatus.planned
    created_at := 0
    updated_at := 0 }

/-- A store holding case "E" with zero tasks. -/
def dbEmptyTasks : DB := { cases := [rowE], tasks := [] }

/-- Case "E" as produced by reading `dbEmptyTasks` at time 0. -/
def cEmptyRead : SurgeryCase :=
  { id := "E"
    patient_name := "P"
    procedure_name := "X"
    priority := SurgeryPriority.elective
    requested_datetime := 0
    status := SurgeryStatus.planned
    created_at := 0
    updated_at := 0
    tasks := [] }

/-- C5 witness: scheduling the task-less case "E" returns the case as
read, with no extra write by the scheduling step. -/
theorem claim_C5_witness :
    schedule_case dbEmptyTasks 0 "E" =
      (some cEmptyRead, add_case cEmptyRead dbEmptyTasks) :=
  ((claim_C5 dbEmptyTasks 0 "E").2 cEmptyRead
      (add_case cEmptyRead dbEmptyTasks) (by decide)).1 (by decide)

/-- Every task of a case returned by `get_case` carries that case's id. -/
theorem get_case_tasks_cid (db : DB) (now : Int) (cid : String)
    (c : SurgeryCase) (db1 : DB) (h : get_case db now cid = (some c, db1)) :
    ∀ t' ∈ c.tasks, t'.case_id = cid := by
  obtain ⟨row, hfind, hid, hc, hdb⟩ := get_case_some db now cid c db1 h
  subst hc
  intro t' ht'
  simp only [refresh_case_tasks, row_to_case_tasks, List.mem_map] at ht'
  obtain ⟨t0, ht0, rfl⟩ := ht'
  rw [mem_sortTasks, List.mem_filter] at ht0
  rw [refreshTask_case_id, ← hid]
  exact beq_iff_eq.1 ht0.2

/-- A refreshed timed task's status lies in scheduled/in_progress/done. -/
theorem refreshTask_status_mem (now : Int) (t : SurgeryTask)
    (h : isTimed (refreshTask now t) = true) :
    (refreshTask now t).status = TaskStatus.scheduled ∨
    (refreshTask now t).status = TaskStatus.in_progress ∨
    (refreshTask now t).status = TaskStatus.done := by
  rw [refreshTask_isTimed] at h
  unfold isTimed at h
  simp only [Bool.and_eq_true, Option.isSome_iff_exists] at h
  obtain ⟨⟨s, hs⟩, ⟨e, he⟩⟩ := h
  rw [refreshTask_timed_status now t s e hs he]
  split
  · right; right; rfl
  · split
    · right; left; rfl
    · left; rfl

/-- Every timed task of a refreshed case has one of the three live
statuses. -/
theorem refreshed_case_status_mem (now : Int) (x : SurgeryCase) :
    ∀ t ∈ (refresh_case_status now x).tasks, isTimed t = true →
      (t.status = TaskStatus.scheduled ∨ t.status = TaskStatus.in_progress ∨
       t.status = TaskStatus.done) := by
  intro t ht htimed
  simp only [refresh_case_tasks, List.mem_map] at ht
  obtain ⟨t0, _, rfl⟩ := ht
  exact refreshTask_status_mem now t0 htimed

/-- C10: after any read (`get_case` or `list_cases`), every task with both
bounds set has status scheduled, in_progress, or done — the refresher
overwrites a timed task's stored status regardless of its value, so
pending/failed/cancelled never survive a read on timed tasks — and the
overwritten tasks are exactly what the read persisted for the case. -/
theorem claim_C10 (db : DB) (now : Int) (cid : String) :
    (∀ c db1, get_case db now cid = (some c, db1) →
      ((∀ t ∈ c.tasks, isTimed t = true →
          (t.status = TaskStatus.scheduled ∨
           t.status = TaskStatus.in_progress ∨
           t.status = TaskStatus.done)) ∧
       db1.tasks.filter (fun t => t.case_id == cid) = c.tasks)) ∧
    (∀ c ∈ (list_cases db now).1, ∀ t ∈ c.tasks, isTimed t = true →
      (t.status = TaskStatus.scheduled ∨ t.status = TaskStatus.in_progress ∨
       t.status = TaskStatus.done)) ∧
    (∀ t : SurgeryTask, ∀ st : TaskStatus, isTimed t = true →
      (refreshTask now { t with status := st }).status =
        (refreshTask now t).status) := by
  refine ⟨?_, ?_, ?_⟩
  · intro c db1 hg
    obtain ⟨row, hfind, hid, hc, hdb⟩ := get_case_some db now cid c db1 hg
    constructor
    · rw [hc]
      exact refreshed_case_status_mem now (row_to_case db row)
    · have hcid := get_case_tasks_cid db now cid c db1 hg
      have hcidc : c.id = cid := get_case_id db now cid c db1 hg
      subst hdb
      unfold add_case
      simp only [List.filter_append, List.filter_filter]
      rw [List.filter_eq_nil_iff.2, List.filter_eq_self.2, List.nil_append]
      · intro t ht
        simp [hcid t ht]
      · intro t ht
        simp only [Bool.and_eq_true, beq_iff_eq, Bool.not_eq_eq_eq_not,
          Bool.not_true] at ht ⊢
        intro hcon
        rcases hcon with ⟨h1, h2⟩
        rw [hcidc] at h2
        simp [h1] at h2
  · have haux : ∀ (rows : List CaseRow) (acc : List SurgeryCase × DB),
        (∀ c ∈ acc.1, ∀ t ∈ c.tasks, isTimed t = true →
          (t.status = TaskStatus.scheduled ∨
           t.status = TaskStatus.in_progress ∨
           t.status = TaskStatus.done)) →
        ∀ c ∈ (rows.foldl (fun acc row =>
            let c := refresh_case_status now (row_to_case acc.2 row)
            (acc.1 ++ [c], add_case c acc.2)) acc).1,
          ∀ t ∈ c.tasks, isTimed t = true →
          (t.status = TaskStatus.scheduled ∨
           t.status = TaskStatus.in_progress ∨
           t.status = TaskStatus.done) := by
      intro rows
      induction rows with
      | nil => intro acc hacc; exact hacc
      | cons r rs ih =>
        intro acc hacc
        refine ih _ ?_
        intro c hc
        rcases List.mem_append.1 hc with h | h
        · exact hacc c h
        · simp only [List.mem_singleton] at h
          subst h
          exact refreshed_case_status_mem now _
    intro c hc
    exact haux (sortRowsDesc db.cases) ([], db) (by simp) c hc
  · intro t st htimed
    unfold isTimed at htimed
    simp only [Bool.and_eq_true] at htimed
    rw [refreshTask_status_overwrite now t st htimed.1 htimed.2]

/-- C10 witness: reading case "C" at time 0 leaves its timed task with a
live status and persists exactly the refreshed tasks. -/
theorem claim_C10_witness :
    (∀ t ∈ cAfterRead.tasks, isTimed t = true →
      (t.status = TaskStatus.scheduled ∨ t.status = TaskStatus.in_progress ∨
       t.status = TaskStatus.done)) ∧
    dbAfterRead.tasks.filter (fun t => t.case_id == "C") = cAfterRead.tasks :=
  (claim_C10 dbCase0 0 "C").1 cAfterRead dbAfterRead (by decide)

/-- Looking up a case id right after `add_case` finds the stored row. -/
theorem add_case_find? (x : SurgeryCase) (db : DB) :
    (add_case x db).cases.find? (fun r => r.id == x.id) =
      some (caseRowOf x) := by
  unfold add_case
  simp only
  rw [List.find?_append]
  have h1 : (db.cases.filter (fun r => !(r.id == x.id))).find?
      (fun r => r.id == x.id) = none := by
    rw [List.find?_eq_none]
    intro r hr
    rw [List.mem_filter] at hr
    simpa using hr.2
  rw [h1]
  simp [caseRowOf]

/-- The tasks stored for a case right after `add_case` are exactly the
case's own task list, when every task carries the case's id. -/
theorem add_case_tasks_filter (x : SurgeryCase) (db : DB)
    (hcid : ∀ t ∈ x.tasks, t.case_id = x.id) :
    (add_case x db).tasks.filter (fun t => t.case_id == x.id) = x.tasks := by
  unfold add_case
  simp only [List.filter_append, List.filter_filter]
  rw [List.filter_eq_nil_iff.2, List.filter_eq_self.2, List.nil_append]
  · intro t ht
    simp [hcid t ht]
  · intro t _
    simp only [Bool.and_eq_true, beq_iff_eq, Bool.not_eq_eq_eq_not,
      Bool.not_true]
    rintro ⟨h1, h2⟩
    simp [h1] at h2

/-- C9: `add_case` followed by `get_case` reproduces every task field but
the status (id, case id, name, room, both bounds; counted with
multiplicity) and every case field except the statuses and `updated_at`,
which the read refreshes; re-inserting an existing case id simply replaces
that case's task set — the model's `add_case` is total, no error path
exists. -/
theorem claim_C9 (db : DB) (now : Int) (case0 : SurgeryCase)
    (hcid : ∀ t ∈ case0.tasks, t.case_id = case0.id) :
    (add_case case0 db).tasks.filter (fun t => t.case_id == case0.id) =
        case0.tasks ∧
    ∃ c', get_case (add_case case0 db) now case0.id =
        (some c', add_case c' (add_case case0 db)) ∧
      c'.id = case0.id ∧ c'.patient_name = case0.patient_name ∧
      c'.procedure_name = case0.procedure_name ∧
      c'.priority = case0.priority ∧
      c'.requested_datetime = case0.requested_datetime ∧
      c'.created_at = case0.created_at ∧
      c'.tasks.length = case0.tasks.length ∧
      (∀ t ∈ case0.tasks, ∃ t' ∈ c'.tasks, t'.id = t.id ∧
        t'.case_id = t.case_id ∧ t'.name = t.name ∧
        t'.or_room_id = t.or_room_id ∧
        t'.scheduled_start = t.scheduled_start ∧
        t'.scheduled_end = t.scheduled_end) ∧
      (∀ t' ∈ c'.tasks, ∃ t ∈ case0.tasks, t'.id = t.id ∧
        t'.case_id = t.case_id ∧ t'.name = t.name ∧
        t'.or_room_id = t.or_room_id ∧
        t'.scheduled_start = t.scheduled_start ∧
        t'.scheduled_end = t.scheduled_end) := by
  have hfil := add_case_tasks_filter case0 db hcid
  refine ⟨hfil, refresh_case_status now
      (row_to_case (add_case case0 db) (caseRowOf case0)),
    ?_, rfl, rfl, rfl, rfl, rfl, rfl, ?_, ?_, ?_⟩
  · unfold get_case
    rw [add_case_find?]
  · simp only [refresh_case_tasks, row_to_case_tasks, caseRowOf]
    rw [hfil]
    simp [length_sortTasks]
  · intro t ht
    refine ⟨refreshTask now t, ?_, by simp, by simp, by simp, by simp,
      by simp, by simp⟩
    simp only [refresh_case_tasks, row_to_case_tasks, caseRowOf]
    rw [hfil]
    exact List.mem_map_of_mem _ ((mem_sortTasks t case0.tasks).2 ht)
  · intro t' ht'
    simp only [refresh_case_tasks, row_to_case_tasks, caseRowOf] at ht'
    rw [hfil] at ht'
    simp only [List.mem_map] at ht'
    obtain ⟨t0, ht0, rfl⟩ := ht'
    exact ⟨t0, (mem_sortTasks t0 case0.tasks).1 ht0, by simp, by simp,
      by simp, by simp, by simp, by simp⟩

/-- The empty store. -/
def dbNil : DB := { cases := [], tasks := [] }

/-- C9 witness: inserting the concrete case "C" into the empty store makes
the store's task rows for "C" exactly the case's own tasks. -/
theorem claim_C9_witness :
    (add_case cAfterRead dbNil).tasks.filter
        (fun t => t.case_id == cAfterRead.id) = cAfterRead.tasks :=
  (claim_C9 dbNil 0 cAfterRead (by decide)).1

attribute [ext] SurgeryCase

/-- Refreshing a case twice against the same clock gives the same result
as refreshing it once. -/
theorem refresh_case_idem (now : Int) (c : SurgeryCase) :
    refresh_case_status now (refresh_case_status now c) =
      refresh_case_status now c := by
  have htasks : (refresh_case_status now c).tasks.map (refreshTask now) =
      c.tasks.map (refreshTask now) := by
    rw [refresh_case_tasks, List.map_map]
    exact List.map_congr_left (fun t _ => refreshTask_idem now t)
  have hempty : (refresh_case_status now c).tasks.isEmpty =
      c.tasks.isEmpty := by
    rw [refresh_case_tasks]
    cases h : c.tasks.isEmpty
    · simp only [List.isEmpty_eq_false] at h ⊢
      simp [h]
    · simp only [List.isEmpty_eq_true] at h ⊢
      simp [h]
  ext1
  · rfl
  · rfl
  · rfl
  · rfl
  · rfl
  · rw [refresh_status_eq now (refresh_case_status now c),
      refresh_status_eq now c, htasks, hempty]
  · rfl
  · rfl
  · rw [refresh_case_tasks now (refresh_case_status now c), htasks,
      refresh_case_tasks now c]

/-- C8: reading a case twice in succession with the same clock yields the
very same case value — identical task statuses and identical case status —
and the second read persists exactly what the first produced: the Status
Refresher is idempotent for a fixed now. -/
theorem claim_C8 (db : DB) (now : Int) (cid : String) (c : SurgeryCase)
    (db1 : DB) (h : get_case db now cid = (some c, db1)) :
    get_case db1 now cid = (some c, add_case c db1) := by
  obtain ⟨row, hfind, hid, hc, hdb⟩ := get_case_some db now cid c db1 h
  have hcidc : c.id = cid := get_case_id db now cid c db1 h
  have hcid := get_case_tasks_cid db now cid c db1 h
  have hsorted : TasksSorted c.tasks := by
    rw [hc]
    simp only [refresh_case_tasks, row_to_case_tasks]
    exact TasksSorted.map _ _ (refreshTask_scheduled_start now)
      (refreshTask_id now) (sortTasks_sorted _)
  subst hdb
  unfold get_case
  have hfind2 : (add_case c db).cases.find? (fun r => r.id == cid) =
      some (caseRowOf c) := by
    rw [← hcidc]
    exact add_case_find? c db
  rw [hfind2]
  simp only
  have hrtc : row_to_case (add_case c db) (caseRowOf c) = c := by
    have hfil : (add_case c db).tasks.filter
        (fun t => t.case_id == c.id) = c.tasks :=
      add_case_tasks_filter c db
        (fun t ht => (hcid t ht).trans hcidc.symm)
    show ({ c with tasks := sortTasks ((add_case c db).tasks.filter
        (fun t => t.case_id == c.id)) } : SurgeryCase) = c
    rw [hfil, sortTasks_eq_of_sorted c.tasks hsorted]
  rw [hrtc]
  have hcc : refresh_case_status now c = c := by
    rw [hc]
    exact refresh_case_idem now _
  rw [hcc]

/-- C8 witness: re-reading case "C" right after the first read returns the
identical case value. -/
theorem claim_C8_witness :
    get_case dbAfterRead 0 "C" =
      (some cAfterRead, add_case cAfterRead dbAfterRead) :=
  claim_C8 dbCase0 0 "C" cAfterRead dbAfterRead (by decide)

/-! ### Preparation for the double-scheduling property -/

/-- The timed-start list is unchanged by any bound-preserving map. -/
theorem startsList_map (l : List SurgeryTask) (f : SurgeryTask → SurgeryTask)
    (hf1 : ∀ t, (f t).scheduled_start = t.scheduled_start)
    (hf2 : ∀ t, (f t).scheduled_end = t.scheduled_end) :
    ((l.map f).filter isTimed).filterMap (fun t => t.scheduled_start) =
      (l.filter isTimed).filterMap (fun t => t.scheduled_start) := by
  induction l with
  | nil => rfl
  | cons x xs ih =>
    have hiso : isTimed (f x) = isTimed x := by
      unfold isTimed
      rw [hf1, hf2]
    simp only [List.map_cons, List.filter_cons, hiso]
    cases hx : isTimed x
    · simp [ih]
    · simp [List.filterMap_cons, ih, hf1 x]

/-- The timed-end list is unchanged by any bound-preserving map. -/
theorem endsList_map (l : List SurgeryTask) (f : SurgeryTask → SurgeryTask)
    (hf1 : ∀ t, (f t).scheduled_start = t.scheduled_start)
    (hf2 : ∀ t, (f t).scheduled_end = t.scheduled_end) :
    ((l.map f).filter isTimed).filterMap (fun t => t.scheduled_end) =
      (l.filter isTimed).filterMap (fun t => t.scheduled_end) := by
  induction l with
  | nil => rfl
  | cons x xs ih =>
    have hiso : isTimed (f x) = isTimed x := by
      unfold isTimed
      rw [hf1, hf2]
    simp only [List.map_cons, List.filter_cons, hiso]
    cases hx : isTimed x
    · simp [ih]
    · simp [List.filterMap_cons, ih, hf2 x]

@[simp] theorem roomIdx_orRoom1 : roomIdx orRoom1 = 0 := rfl

@[simp] theorem roomIdx_orRoom2 : roomIdx orRoom2 = 1 := rfl

@[simp] theorem roomIdx_orRoom3 : roomIdx orRoom3 = 2 := rfl

@[simp] theorem roomIdx_orRoom4 : roomIdx orRoom4 = 3 := rfl

@[simp] theorem roomIdx_orRoom5 : roomIdx orRoom5 = 4 := rfl

/-- Rooms of the fixed set are determined by their position. -/
theorem roomIdx_inj : ∀ r ∈ orRooms, ∀ r' ∈ orRooms,
    roomIdx r = roomIdx r' → r = r' := by decide

/-- The first-fit scan rejects every room before the one it returns. -/
theorem orRooms_find?_prefix (p : ORRoom → Bool) (r : ORRoom)
    (h : orRooms.find? p = some r) :
    ∀ r' ∈ orRooms, roomIdx r' < roomIdx r → p r' = false := by
  intro r' hr' hlt
  simp only [orRooms, List.mem_cons, List.not_mem_nil, or_false] at hr'
  cases h1 : p orRoom1 <;> cases h2 : p orRoom2 <;>
    cases h3 : p orRoom3 <;> cases h4 : p orRoom4 <;>
    cases h5 : p orRoom5 <;>
    simp only [orRooms, List.find?_cons, h1, h2, h3, h4, h5] at h
  all_goals (try exact Option.noConfusion h)
  all_goals
    (rw [Option.some.injEq] at h
     subst h
     rcases hr' with rfl | rfl | rfl | rfl | rfl <;> simp_all <;> omega)

/-- A task of another case survives an `add_case` for this case. -/
theorem mem_add_case_tasks_of_ne (x : SurgeryCase) (db : DB)
    (t : SurgeryTask) (ht : t ∈ db.tasks) (hne : t.case_id ≠ x.id) :
    t ∈ (add_case x db).tasks := by
  unfold add_case
  refine List.mem_append_left _ ?_
  rw [List.mem_filter]
  exact ⟨ht, by simp [hne]⟩

/-- C7 (amended): starting from a case whose stored tasks hold no room,
a first successful `schedule_case` re-persists the case via the read path
and assigns the first-fit room `r1`; provided at least one timed task has
`start < end`, a second `schedule_case` sees the case's own tasks as a
conflict in `r1` for the same envelope, so its room query can never return
`r1` again: it returns a room strictly later in enumeration order, or no
room at all. -/
theorem claim_C7 (db : DB) (now : Int) (cid : String) (c : SurgeryCase)
    (dbA : DB) (S E : Int) (r1 : ORRoom)
    (h0 : ∀ t ∈ db.tasks, t.case_id = cid → t.or_room_id = none)
    (hg : get_case db now cid = (some c, dbA))
    (hS : ((c.tasks.filter isTimed).filterMap
        (fun t => t.scheduled_start)).min? = some S)
    (hE : ((c.tasks.filter isTimed).filterMap
        (fun t => t.scheduled_end)).max? = some E)
    (hnd : ∃ t ∈ c.tasks, ∃ s e, t.scheduled_start = some s ∧
      t.scheduled_end = some e ∧ s < e)
    (hfind : find_available_or dbA S E = some r1) :
    ∃ c1 c2 dbB,
      schedule_case db now cid = (some c1, add_case c1 dbA) ∧
      (∀ t ∈ c1.tasks, t.or_room_id = some r1.id) ∧
      get_case (add_case c1 dbA) now cid = (some c2, dbB) ∧
      ((c2.tasks.filter isTimed).filterMap
        (fun t => t.scheduled_start)).min? = some S ∧
      ((c2.tasks.filter isTimed).filterMap
        (fun t => t.scheduled_end)).max? = some E ∧
      conflictsWith dbB.tasks r1.id S E = true ∧
      find_available_or dbB S E ≠ some r1 ∧
      (find_available_or dbB S E = none ∨
        ∃ r2, find_available_or dbB S E = some r2 ∧
          roomIdx r1 < roomIdx r2) := by
  have hcidc : c.id = cid := get_case_id db now cid c dbA hg
  have hcidtasks := get_case_tasks_cid db now cid c dbA hg
  have hroomnone : ∀ t' ∈ c.tasks, t'.or_room_id = none := by
    intro t' ht'
    obtain ⟨t0, ht0, hcid0, _, hroom0, _, _⟩ :=
      get_case_task_origin db now cid c dbA hg t' ht'
    rw [← hroom0]
    exact h0 t0 ht0 hcid0
  obtain ⟨row, hfindrow, hrowid, hcdef, hdbA⟩ :=
    get_case_some db now cid c dbA hg
  have hsorted : TasksSorted c.tasks := by
    rw [hcdef]
    simp only [refresh_case_tasks, row_to_case_tasks]
    exact TasksSorted.map _ _ (refreshTask_scheduled_start now)
      (refreshTask_id now) (sortTasks_sorted _)
  have hfil : c.tasks.filter isTimed ≠ [] := by
    intro hcon
    rw [hcon] at hS
    simp at hS
  have htasksne : c.tasks ≠ [] := by
    intro hcon
    rw [hcon] at hfil
    simp at hfil
  have hempty1 : c.tasks.isEmpty = false := by
    simpa [List.isEmpty_iff] using htasksne
  have hempty2 : (c.tasks.filter isTimed).isEmpty = false := by
    simpa [List.isEmpty_iff] using hfil
  set asn : SurgeryTask → SurgeryTask := fun t =>
    { t with
        or_room_id := some r1.id
        status := TaskStatus.scheduled } with hasn
  have hasn_start : ∀ t, (asn t).scheduled_start = t.scheduled_start :=
    fun t => rfl
  have hasn_end : ∀ t, (asn t).scheduled_end = t.scheduled_end :=
    fun t => rfl
  have hasn_id : ∀ t, (asn t).id = t.id := fun t => rfl
  have hasn_cid : ∀ t, (asn t).case_id = t.case_id := fun t => rfl
  have hasn_room : ∀ t, (asn t).or_room_id = some r1.id := fun t => rfl
  set c1 : SurgeryCase :=
    { c with tasks := c.tasks.map asn, updated_at := now } with hc1
  set c2 : SurgeryCase := refresh_case_status now c1 with hc2
  set db1 : DB := add_case c1 dbA with hdb1
  set dbB : DB := add_case c2 db1 with hdbB
  have hc1id : c1.id = cid := hcidc
  have hc1tasks : c1.tasks = c.tasks.map asn := rfl
  have hc1cid : ∀ t ∈ c1.tasks, t.case_id = cid := by
    rw [hc1tasks]
    intro t ht
    simp only [List.mem_map] at ht
    obtain ⟨t0, ht0, rfl⟩ := ht
    rw [hasn_cid t0]
    exact hcidtasks t0 ht0
  have hc1sorted : TasksSorted c1.tasks := by
    rw [hc1tasks]
    exact TasksSorted.map _ asn hasn_start hasn_id hsorted
  have hc2tasks : c2.tasks = (c.tasks.map asn).map (refreshTask now) := by
    rw [hc2, refresh_case_tasks, hc1tasks]
  have hc1idc : c1.id = c.id := rfl
  have hc2id : c2.id = c1.id := rfl
  have hc6 : conflictsWith dbB.tasks r1.id S E = true := by
    obtain ⟨tw, htw, sw, ew, htws, htwe, hlt⟩ := hnd
    have hmem2 : refreshTask now (asn tw) ∈ c2.tasks := by
      rw [hc2tasks]
      exact List.mem_map_of_mem _ (List.mem_map_of_mem _ htw)
    have hmemB : refreshTask now (asn tw) ∈ dbB.tasks := by
      rw [hdbB]
      unfold add_case
      exact List.mem_append_right _ hmem2
    have hsw : sw ∈ (c.tasks.filter isTimed).filterMap
        (fun t => t.scheduled_start) := by
      rw [List.mem_filterMap]
      exact ⟨tw, List.mem_filter.2 ⟨htw, by simp [isTimed, htws, htwe]⟩, htws⟩
    have hew : ew ∈ (c.tasks.filter isTimed).filterMap
        (fun t => t.scheduled_end) := by
      rw [List.mem_filterMap]
      exact ⟨tw, List.mem_filter.2 ⟨htw, by simp [isTimed, htws, htwe]⟩, htwe⟩
    have hSle : S ≤ sw := (int_min?_eq_some_iff.1 hS).2 sw hsw
    have hEge : ew ≤ E := (int_max?_eq_some_iff.1 hE).2 ew hew
    refine (conflictsWith_iff dbB.tasks r1.id S E).2
      ⟨refreshTask now (asn tw), hmemB, by simp [hasn_room tw], sw, ew,
        by simp [hasn_start tw, htws], by simp [hasn_end tw, htwe],
        by omega, by omega⟩
  have hr1mem : r1 ∈ orRooms := by
    unfold find_available_or at hfind
    exact List.mem_of_find?_eq_some hfind
  have hfind2 : orRooms.find? (fun room =>
      !(conflictsWith dbA.tasks room.id S E)) = some r1 := hfind
  have hprefix := orRooms_find?_prefix _ r1 hfind2
  have hconf2 : ∀ r' ∈ orRooms, roomIdx r' ≤ roomIdx r1 →
      conflictsWith dbB.tasks r'.id S E = true := by
    intro r' hr' hle
    rcases Nat.eq_or_lt_of_le hle with heq | hlt2
    · rw [roomIdx_inj r' hr' r1 hr1mem heq]
      exact hc6
    · have hb := hprefix r' hr' hlt2
      simp only [Bool.not_eq_false'] at hb
      obtain ⟨tw, htw, hroomw, ts, te, h1w, h2w, h3w, h4w⟩ :=
        (conflictsWith_iff dbA.tasks r'.id S E).1 hb
      have htwA := htw
      rw [hdbA] at htwA
      unfold add_case at htwA
      rcases List.mem_append.1 htwA with hin | hin
      · rw [List.mem_filter] at hin
        obtain ⟨hin0, hpred⟩ := hin
        have hne : tw.case_id ≠ c.id := by simpa using hpred
        have hmem1 : tw ∈ db1.tasks := by
          rw [hdb1]
          exact mem_add_case_tasks_of_ne c1 dbA tw htw
            (by rw [hc1idc]; exact hne)
        have hmemB : tw ∈ dbB.tasks := by
          rw [hdbB]
          exact mem_add_case_tasks_of_ne c2 db1 tw hmem1
            (by rw [hc2id, hc1idc]; exact hne)
        exact (conflictsWith_iff dbB.tasks r'.id S E).2
          ⟨tw, hmemB, hroomw, ts, te, h1w, h2w, h3w, h4w⟩
      · have hnone := hroomnone tw hin
        rw [hnone] at hroomw
        exact Option.noConfusion hroomw
  refine ⟨c1, c2, dbB, ?_, ?_, ?_, ?_, ?_, hc6, ?_, ?_⟩
  · unfold schedule_case
    rw [hg]
    simp only [hempty1, Bool.false_eq_true, if_false, hempty2, hS, hE, hfind]
  · rw [hc1tasks]
    intro t ht
    simp only [List.mem_map] at ht
    obtain ⟨t0, _, rfl⟩ := ht
    exact hasn_room t0
  · rw [← hdb1]
    unfold get_case
    have hfindc1 : db1.cases.find? (fun r => r.id == cid) =
        some (caseRowOf c1) := by
      rw [hdb1, ← hc1id]
      exact add_case_find? c1 dbA
    rw [hfindc1]
    simp only
    have hfil2 : db1.tasks.filter (fun t => t.case_id == c1.id) =
        c1.tasks := by
      rw [hdb1]
      exact add_case_tasks_filter c1 dbA
        (fun t ht => (hc1cid t ht).trans hc1id.symm)
    have hrtc : row_to_case db1 (caseRowOf c1) = c1 := by
      show ({ c1 with tasks := sortTasks (db1.tasks.filter
          (fun t => t.case_id == c1.id)) } : SurgeryCase) = c1
      rw [hfil2, sortTasks_eq_of_sorted c1.tasks hc1sorted]
    rw [hrtc, ← hc2, ← hdbB]
  · rw [hc2tasks,
      startsList_map _ (refreshTask now) (refreshTask_scheduled_start now)
        (refreshTask_scheduled_end now),
      startsList_map _ asn hasn_start hasn_end, hS]
  · rw [hc2tasks,
      endsList_map _ (refreshTask now) (refreshTask_scheduled_start now)
        (refreshTask_scheduled_end now),
      endsList_map _ asn hasn_start hasn_end, hE]
  · intro hcon
    unfold find_available_or at hcon
    have hp := List.find?_some hcon
    simp only [Bool.not_eq_true'] at hp
    rw [hc6] at hp
    exact Bool.noConfusion hp
  · cases hfB : find_available_or dbB S E with
    | none => exact Or.inl rfl
    | some r2 =>
      right
      refine ⟨r2, rfl, ?_⟩
      have hfB2 : orRooms.find? (fun room =>
          !(conflictsWith dbB.tasks room.id S E)) = some r2 := hfB
      have hp2 := List.find?_some hfB2
      simp only [Bool.not_eq_true'] at hp2
      have hm2 : r2 ∈ orRooms := List.mem_of_find?_eq_some hfB2
      by_contra hcon2
      push_neg at hcon2
      have hct := hconf2 r2 hm2 hcon2
      rw [hct] at hp2
      exact Bool.noConfusion hp2

/-- A stored case row for case "D". -/
def rowD : CaseRow :=
  { id := "D"
    patient_name := "P"
    procedure_name := "X"
    priority := SurgeryPriority.elective
    requested_datetime := 0
    status := SurgeryStatus.planned
    created_at := 0
    updated_at := 0 }

/-- A task of case "D" with the degenerate window `[0, 0]`. -/
def taskDeg : SurgeryTask :=
  { id := "D-T1"
    case_id := "D"
    name := "deg"
    status := TaskStatus.scheduled
    or_room_id := none
    scheduled_start := some 0
    scheduled_end := some 0 }

/-- A store holding case "D" whose only task has a degenerate window. -/
def dbDeg : DB := { cases := [rowD], tasks := [taskDeg] }

/-- C7, counterexample: for a case whose only timed window is degenerate
(`start = end`), the window conflicts with nothing — not even itself — so
a second `schedule_case` re-selects OR-1, the very room the first call
assigned: "the second call never re-selects the same room" is false as
stated. -/
theorem claim_C7_counterexample :
    ((schedule_case dbDeg 0 "D").1.map
        (fun c => c.tasks.map (fun t => t.or_room_id))) =
      some [some "OR-1"] ∧
    ((schedule_case (schedule_case dbDeg 0 "D").2 0 "D").1.map
        (fun c => c.tasks.map (fun t => t.or_room_id))) =
      some [some "OR-1"] := by
  refine ⟨by decide, by decide⟩

/-- C7 witness: for case "C" with the non-degenerate window `[0, 1)`, the
first call books OR-1 and the second call's room query must answer with a
strictly later room or none. -/
theorem claim_C7_witness :
    ∃ c1 c2 dbB,
      schedule_case dbCase0 0 "C" = (some c1, add_case c1 dbAfterRead) ∧
      (∀ t ∈ c1.tasks, t.or_room_id = some orRoom1.id) ∧
      get_case (add_case c1 dbAfterRead) 0 "C" = (some c2, dbB) ∧
      ((c2.tasks.filter isTimed).filterMap
        (fun t => t.scheduled_start)).min? = some 0 ∧
      ((c2.tasks.filter isTimed).filterMap
        (fun t => t.scheduled_end)).max? = some 1 ∧
      conflictsWith dbB.tasks orRoom1.id 0 1 = true ∧
      find_available_or dbB 0 1 ≠ some orRoom1 ∧
      (find_available_or dbB 0 1 = none ∨
        ∃ r2, find_available_or dbB 0 1 = some r2 ∧
          roomIdx orRoom1 < roomIdx r2) :=
  claim_C7 dbCase0 0 "C" cAfterRead dbAfterRead 0 1 orRoom1
    (by decide) (by decide) (by decide) (by decide)
    ⟨{ taskTimed01 with status := TaskStatus.in_progress }, by decide,
      0, 1, rfl, rfl, by decide⟩
    (by decide)
